import Mathlib

/-!
Verification of the sims2-4k-ui-mod resource build pipeline
(src/sims2_4k_ui_converter.py) against its natural-language specification.

Text is modelled as `List Char`, byte buffers as `List Nat`.  Python string
operations (`split`, `replace`, `strip`, `join`, `int`, `str`) are embedded
as structurally recursive Lean functions; `split` and `replace` use an
explicit fuel argument (the input length suffices) so that all definitions
reduce in the kernel.
-/

/-! ## Python string primitives -/

/-- ASCII whitespace recognised by Python's `str.strip()` (the source files
are ASCII, so the unicode cases are irrelevant here). -/
def isPySpace (c : Char) : Bool :=
  c == ' ' || c == '\t' || c == '\n' || c == '\r' || c == '\x0b' || c == '\x0c'

/-- Python `str.strip()`: drop leading and trailing whitespace. -/
def pyStrip (l : List Char) : List Char :=
  ((l.dropWhile isPySpace).reverse.dropWhile isPySpace).reverse

/-- Does `sep` occur as a contiguous sublist of `l`?  (Python `sep in l`.) -/
def containsSub (sep : List Char) : List Char → Bool
  | [] => sep.isPrefixOf []
  | c :: rest => sep.isPrefixOf (c :: rest) || containsSub sep rest

/-- Core of Python `str.split(sep)` for a non-empty separator: scan left to
right, cutting at each non-overlapping occurrence of `sep`.  The fuel bounds
the recursion; `fuel = l.length` is always enough. -/
def pySplitCore (sep : List Char) : Nat → List Char → List (List Char)
  | _, [] => [[]]
  | 0, l => [l]
  | fuel + 1, c :: rest =>
    if sep.isPrefixOf (c :: rest) then
      [] :: pySplitCore sep fuel (List.drop sep.length (c :: rest))
    else
      match pySplitCore sep fuel rest with
      | [] => [[c]]
      | p :: ps => (c :: p) :: ps

/-- Python `l.split(sep)` (the source never calls it with an empty `sep`,
which Python rejects). -/
def pySplit (sep l : List Char) : List (List Char) :=
  pySplitCore sep l.length l

/-- Core of Python `str.replace(old, new)` for non-empty `old`: replace
every non-overlapping occurrence, left to right. -/
def pyReplaceCore (old new : List Char) : Nat → List Char → List Char
  | _, [] => []
  | 0, l => l
  | fuel + 1, c :: rest =>
    if old.isPrefixOf (c :: rest) then
      new ++ pyReplaceCore old new fuel (List.drop old.length (c :: rest))
    else
      c :: pyReplaceCore old new fuel rest

/-- Python `l.replace(old, new)` (the source never calls it with an empty
`old`). -/
def pyReplace (old new l : List Char) : List Char :=
  pyReplaceCore old new l.length l

/-- Python `sep.join(pieces)`. -/
def joinSep (sep : List Char) : List (List Char) → List Char
  | [] => []
  | [x] => x
  | x :: xs => x ++ sep ++ joinSep sep xs

/-- Option-valued map over a list; `none` as soon as one element fails
(models a Python exception escaping a loop that builds a list). -/
def mapOpt (f : α → Option β) : List α → Option (List β)
  | [] => some []
  | a :: l =>
    match f a with
    | none => none
    | some b => (mapOpt f l).map (fun bs => b :: bs)

/-! ## Python `int(str)` and `str(int)` -/

def digitVal (c : Char) : Nat := c.toNat - 48

/-- Digit run of Python's `int()`: decimal digits with single underscores
allowed between digits (no leading, trailing or doubled underscore). -/
def parseDigitsGo : Nat → List Char → Option Nat
  | acc, [] => some acc
  | acc, '_' :: rest =>
    match rest with
    | [] => none
    | d :: rest' =>
      if d.isDigit then parseDigitsGo (acc * 10 + digitVal d) rest' else none
  | acc, d :: rest =>
    if d.isDigit then parseDigitsGo (acc * 10 + digitVal d) rest else none

def parseDigits : List Char → Option Nat
  | [] => none
  | d :: rest =>
    if d.isDigit then parseDigitsGo (digitVal d) rest else none

/-- Python `int(s)` on a string: strip whitespace, optional sign, decimal
digits; any other shape raises `ValueError`, modelled as `none`. -/
def pyInt (s : List Char) : Option Int :=
  match pyStrip s with
  | '+' :: rest => (parseDigits rest).map (fun n => (n : Int))
  | '-' :: rest => (parseDigits rest).map (fun n => -(n : Int))
  | rest => (parseDigits rest).map (fun n => (n : Int))

def digitChar (n : Nat) : Char :=
  match n with
  | 0 => '0' | 1 => '1' | 2 => '2' | 3 => '3' | 4 => '4'
  | 5 => '5' | 6 => '6' | 7 => '7' | 8 => '8' | _ => '9'

/-- Fuel-driven decimal rendering of a natural number (most significant
digit first); `fuel = n + 1` is always enough. -/
def natReprCore : Nat → Nat → List Char → List Char
  | 0, _, acc => acc
  | fuel + 1, n, acc =>
    if n < 10 then digitChar n :: acc
    else natReprCore fuel (n / 10) (digitChar (n % 10) :: acc)

/-- Decimal rendering of a natural number, as Python `str(n)` for `n ≥ 0`. -/
def natRepr (n : Nat) : List Char := natReprCore (n + 1) n []

/-- Python `str(i)` for an integer: minimal decimal form, with a leading
minus sign for negative values. -/
def intRepr (i : Int) : List Char :=
  if i < 0 then '-' :: natRepr i.natAbs else natRepr i.natAbs

/-! ## Type Sniffer (`filter_files_by_type`, lines 58-95)

Classification of a file by its leading bytes; the path plays no role.
-/

inductive Filetype
  | tga | bmp | jpg | png | unknown
deriving DecidableEq, Repr

/-- Lines 73-87: `start = f.read()[:4]`, then prefix comparisons, in source
order: `b'\x00\x00\x02'` or `b'\x00\x00\x0a'` (Targa), `b'BM'` (Bitmap),
`b'\xff\xd8\xff'` (JPEG), `b'\x89PNG'` (PNG), otherwise unknown. -/
def filetype (data : List Nat) : Filetype :=
  let start := data.take 4
  if start.take 3 = [0, 0, 2] ∨ start.take 3 = [0, 0, 10] then .tga
  else if start.take 2 = [66, 77] then .bmp
  else if start.take 3 = [255, 216, 255] then .jpg
  else if start.take 4 = [137, 80, 78, 71] then .png
  else .unknown

/-- One file as seen by `filter_files_by_type`: the path is used only to
open the file; the classification reads the content. -/
def classify_file (_path : List Char) (data : List Nat) : Filetype :=
  filetype data

/-! ## Font Table Rewriter (`upscale_fontstyle_ini`, lines 98-128)

Per line: split on the double-quote character; lines with fewer than six
pieces pass through; otherwise the piece at index 3 is parsed as an integer,
rescaled, re-rendered, and the pieces are re-joined with double quotes.
A `ValueError` from `int()` (modelled as `none`) aborts the run before any
output is written.
-/

def quoteChar : Char := Char.ofNat 34

/-- Lines 114-123, body of the per-line loop. -/
def upscale_fontstyle_line (sf delta : Int) (line : List Char) : Option (List Char) :=
  let parts := pySplit [quoteChar] line
  if parts.length < 6 then some line
  else
    match pyInt (parts.getD 3 []) with
    | none => none
    | some n => some (joinSep [quoteChar] (parts.set 3 (intRepr (n * sf + delta))))

/-- Lines 113-123: the whole file, one line at a time, in order.  Python's
`readlines` keeps each line's trailing newline inside the line, and
`writelines` concatenates the results, so the per-line view is exact. -/
def upscale_fontstyle_ini (sf delta : Int) (lines : List (List Char)) : Option (List (List Char)) :=
  mapOpt (upscale_fontstyle_line sf delta) lines

/-! ## Geometry Rewriter (`upscale_uiscripts` / `_replace_coord_attribute`,
lines 131-176)

The data is split on `name ++ "="`; a piece that starts with `(` has the
text between its first `(` and first `)` parsed as comma-separated
integers, each multiplied by the zoom factor; the re-joined value string
then replaces every occurrence of the old value string inside the piece
(Python `str.replace`), and the piece is prefixed with `name ++ "="`.
Pieces not starting with `(` are emitted unchanged (without the separator
that was split away).  The pieces are concatenated with `""`.
-/

/-- Lines 164-167: scale the comma-separated integers of a value string. -/
def scale_values (sf : Int) (values : List Char) : Option (List Char) :=
  (mapOpt pyInt (pySplit [','] values)).map
    (fun ns => joinSep [','] (ns.map (fun n => intRepr (n * sf))))

/-- Lines 159-169, body of the per-piece loop.  `part.split("(")[1]` and
`.split(")")[0]` are modelled with `List.get?`; a missing index would be a
Python `IndexError` (`none`), though the leading-parenthesis guard makes
index 1 always present. -/
def replace_coord_part (sf : Int) (name part : List Char) : Option (List Char) :=
  if ['('].isPrefixOf part then
    match ((pySplit ['('] part).get? 1).bind (fun s => (pySplit [')'] s).get? 0) with
    | none => none
    | some values =>
      match scale_values sf values with
      | none => none
      | some newvals => some (name ++ '=' :: pyReplace values newvals part)
  else some part

/-- Lines 156-170: `_replace_coord_attribute(data, name)`. -/
def replace_coord_attribute (sf : Int) (name data : List Char) : Option (List Char) :=
  (mapOpt (replace_coord_part sf name) (pySplit (name ++ ['=']) data)).map
    (joinSep [])

/-- Lines 172-173: the two attribute passes applied to one decodable
uiScript file, `area` first, then `gutters`. -/
def upscale_uiscript_data (sf : Int) (data : List Char) : Option (List Char) :=
  (replace_coord_attribute sf ("area".toList) data).bind
    (fun d => replace_coord_attribute sf ("gutters".toList) d)

/-! ## Raster Upscale Dispatcher (`upscale_graphics`, lines 179-219)

Lines 210-217 for one classified file: `os.system("convert ...")` is
invoked and its return value is discarded; the staged input is removed and
the converter's output file is renamed to the final name.  `os.rename`
raises (aborting the build) only when that output file does not exist; any
file the converter left behind, truncated or empty, is renamed and the loop
continues as success.
-/

/-- Outcome of the external `convert` subprocess: its exit code, and the
file it left at the staging output path, if any. -/
structure ConvertResult where
  exitCode : Int
  output : Option (List Nat)
deriving DecidableEq

/-- Lines 210-217 for one file.  The exit code field is never consulted,
exactly as in the source. -/
def upscale_one (res : ConvertResult) : Except Unit (List Nat) :=
  match res.output with
  | some bytes => Except.ok bytes
  | none => Except.error ()

/-! ## Destination-file trace of `create_dbpf_package` (lines 259-301)

The effects of the build on the destination path `output/ui.package`, in
program order: line 262-263 removes an existing file, line 264 creates an
empty one, line 301 (`package.save`, from the project's dbpf library, which
is outside src/) writes the finished archive; the save is modelled as one
write of the final bytes.  An interruption observes the state after some
prefix of these events.
-/

inductive DestFile
  | absent
  | file (bytes : List Nat)
deriving DecidableEq

inductive DestEv
  | remove
  | createEmpty
  | save (bytes : List Nat)
deriving DecidableEq

def destStep : DestFile → DestEv → DestFile
  | _, .remove => .absent
  | _, .createEmpty => .file []
  | _, .save b => .file b

def destRun (s : DestFile) (evs : List DestEv) : DestFile :=
  evs.foldl destStep s

/-- The event sequence lines 262-264 and 301 perform on the destination:
remove when a file exists, create empty, save the final bytes. -/
def create_dbpf_package_events (prev : DestFile) (final : List Nat) : List DestEv :=
  (match prev with
   | .absent => []
   | .file _ => [DestEv.remove]) ++ [DestEv.createEmpty, DestEv.save final]

/-! ## Identity Resolver and Archive Assembler loop
(`create_dbpf_package`, lines 251-301)
-/

structure XmlFile where
  path : List Char
  lines : List (List Char)
deriving DecidableEq

def openTag (attrib : List Char) : List Char := '<' :: attrib ++ ['>']

def closeTag (attrib : List Char) : List Char := '<' :: '/' :: attrib ++ ['>']

/-- Lines 270-279, `_get_xml_attribute`: the first line whose stripped form
starts with the opening tag yields `int` of the stripped text between the
opening and closing tags (a `ValueError` is `none`); with no matching line
the function returns 0. -/
def get_xml_attribute : List (List Char) → List Char → Option Int
  | [], _ => some 0
  | line :: rest, attrib =>
    if (openTag attrib).isPrefixOf (pyStrip line) then
      match (pySplit (openTag attrib) line).get? 1 with
      | none => none
      | some after =>
        match (pySplit (closeTag attrib) after).get? 0 with
        | none => none
        | some v => pyInt (pyStrip v)
    else get_xml_attribute rest attrib

structure PkgEntry where
  type_id : Int
  group_id : Int
  instance_id : Int
  file_path : List Char
deriving DecidableEq

/-- Lines 286-288: the three identity tags, resolved in source order. -/
def resolve_ids (f : XmlFile) : Option (Int × Int × Int) :=
  match get_xml_attribute f.lines ("number".toList) with
  | none => none
  | some t =>
    match get_xml_attribute f.lines ("group".toList) with
    | none => none
    | some g =>
      match get_xml_attribute f.lines ("instance".toList) with
      | none => none
      | some i => some (t, g, i)

/-- Line 292: `uuid = str(group_id) + "_" + str(instance_id)`. -/
def uuidOf (g i : Int) : List Char := intRepr g ++ '_' :: intRepr i

/-- Line 285: `file_path = xml_path.replace(".xml", "")`. -/
def pkg_file_path (f : XmlFile) : List Char := pyReplace (".xml".toList) [] f.path

/-- Line 282: `xml_path.endswith("package.xml")`. -/
def isPackageXml (f : XmlFile) : Bool := ("package.xml".toList).isSuffixOf f.path

/-- Lines 281-299, the assembly loop: skip the manifest sidecar, resolve the
identity, skip files whose `uuid` string was already registered (the skip
also prints a warning, an I/O effect outside this model), otherwise
register the uuid and add the entry.  The `uuids` accumulator is the
membership-relevant content of the Python list. -/
def create_dbpf_package : List XmlFile → List (List Char) → Option (List PkgEntry)
  | [], _ => some []
  | f :: fs, uuids =>
    if isPackageXml f then create_dbpf_package fs uuids
    else
      match resolve_ids f with
      | none => none
      | some (t, g, i) =>
        if uuidOf g i ∈ uuids then create_dbpf_package fs uuids
        else
          (create_dbpf_package fs (uuidOf g i :: uuids)).map
            (fun es => ⟨t, g, i, pkg_file_path f⟩ :: es)

/-- One resolved resource: its identity triple and payload path. -/
def resolveEntry (f : XmlFile) : Option PkgEntry :=
  (resolve_ids f).map (fun t => ⟨t.1, t.2.1, t.2.2, pkg_file_path f⟩)

/-- The resolved resource stream: every non-manifest sidecar paired with its
identity, before duplicate handling. -/
def resolveAll (fs : List XmlFile) : Option (List PkgEntry) :=
  mapOpt resolveEntry (fs.filter (fun f => !isPackageXml f))

/-- Modelled from the spec: duplicate detection keyed on the
`(group_id, instance_id)` pair only, first registration kept.  Compared
with the source's string-uuid loop in the refinement theorem for C1. -/
def dedupByPair : List PkgEntry → List (Int × Int) → List PkgEntry
  | [], _ => []
  | e :: es, seen =>
    if (e.group_id, e.instance_id) ∈ seen then dedupByPair es seen
    else e :: dedupByPair es ((e.group_id, e.instance_id) :: seen)

/-- A sidecar carrying identity `(type=1, group=5, instance=9)`. -/
def exampleXmlA : XmlFile :=
  ⟨"a.xml".toList,
   ["<number>1</number>".toList, "<group>5</group>".toList,
    "<instance>9</instance>".toList]⟩

/-- A sidecar carrying identity `(type=2, group=5, instance=9)`: same group
and instance as `exampleXmlA`, different type. -/
def exampleXmlB : XmlFile :=
  ⟨"b.xml".toList,
   ["<number>2</number>".toList, "<group>5</group>".toList,
    "<instance>9</instance>".toList]⟩

/-- The sidecar describing the archive itself; excluded from packing. -/
def examplePackageXml : XmlFile := ⟨"sub/package.xml".toList, []⟩

/-- A font-table data line with six quote-split fields whose index-3 field
is the point size 10 (quotes written via `joinSep` to keep the sources
readable); the trailing newline stays inside the line, as with
`readlines`. -/
def exampleFontLine : List Char :=
  joinSep [quoteChar]
    ["a".toList, "b".toList, "c".toList, "10".toList, "d".toList,
     ("e" ++ "\n").toList]

/-- The same line with a non-numeric index-3 field. -/
def exampleBadFontLine : List Char :=
  joinSep [quoteChar]
    ["a".toList, "b".toList, "c".toList, "xx".toList, "d".toList,
     ("e" ++ "\n").toList]

/-- Value read back from a digit list, most significant digit first (proof
device for the injectivity of the decimal rendering). -/
def reprVal (l : List Char) : Nat :=
  l.foldl (fun a c => a * 10 + digitVal c) 0

/-! ## Lemmas about decimal rendering -/

theorem digitVal_digitChar : ∀ n < 10, digitVal (digitChar n) = n := by decide

theorem digitChar_isDigit : ∀ n < 10, (digitChar n).isDigit = true := by decide

theorem natReprCore_append (f : Nat) :
    ∀ (n : Nat) (acc : List Char),
      natReprCore f n acc = natReprCore f n [] ++ acc := by
  induction f with
  | zero => intro n acc; simp [natReprCore]
  | succ f ih =>
    intro n acc
    by_cases h : n < 10
    · simp [natReprCore, h]
    · simp only [natReprCore, if_neg h]
      rw [ih (n / 10) (digitChar (n % 10) :: acc),
        ih (n / 10) [digitChar (n % 10)]]
      simp

theorem natReprCore_fuel (f₁ : Nat) :
    ∀ (f₂ n : Nat) (acc : List Char), n < f₁ → n < f₂ →
      natReprCore f₁ n acc = natReprCore f₂ n acc := by
  induction f₁ with
  | zero => intro f₂ n acc h₁; omega
  | succ f ih =>
    intro f₂ n acc h₁ h₂
    match f₂, h₂ with
    | g + 1, _ =>
      by_cases h : n < 10
      · simp [natReprCore, h]
      · simp only [natReprCore, if_neg h]
        exact ih g (n / 10) _ (by omega) (by omega)

theorem natRepr_lt (n : Nat) (h : n < 10) : natRepr n = [digitChar n] := by
  simp [natRepr, natReprCore, h]

theorem natRepr_ge (n : Nat) (h : 10 ≤ n) :
    natRepr n = natRepr (n / 10) ++ [digitChar (n % 10)] := by
  unfold natRepr
  rw [show natReprCore (n + 1) n [] =
      natReprCore n (n / 10) [digitChar (n % 10)] by
    simp [natReprCore, Nat.not_lt.mpr h]]
  rw [natReprCore_append n (n / 10) [digitChar (n % 10)]]
  rw [natReprCore_fuel n (n / 10 + 1) (n / 10) [] (by omega) (by omega)]

theorem reprVal_append_digit (xs : List Char) (c : Char) :
    reprVal (xs ++ [c]) = reprVal xs * 10 + digitVal c := by
  simp [reprVal, List.foldl_append]

theorem reprVal_natRepr (n : Nat) : reprVal (natRepr n) = n := by
  induction n using Nat.strong_induction_on with
  | _ n ih =>
    by_cases h : n < 10
    · rw [natRepr_lt n h]
      simp [reprVal, digitVal_digitChar n h]
    · have h' : 10 ≤ n := by omega
      rw [natRepr_ge n h', reprVal_append_digit]
      rw [ih (n / 10) (by omega)]
      have := digitVal_digitChar (n % 10) (by omega)
      omega

theorem natRepr_injective {m n : Nat} (h : natRepr m = natRepr n) : m = n := by
  rw [← reprVal_natRepr m, ← reprVal_natRepr n, h]

theorem natRepr_digits (n : Nat) : ∀ c ∈ natRepr n, c.isDigit = true := by
  induction n using Nat.strong_induction_on with
  | _ n ih =>
    intro c hc
    by_cases h : n < 10
    · rw [natRepr_lt n h] at hc
      simp at hc
      subst hc
      exact digitChar_isDigit n h
    · rw [natRepr_ge n (by omega)] at hc
      rcases List.mem_append.mp hc with h' | h'
      · exact ih (n / 10) (by omega) c h'
      · simp at h'
        subst h'
        exact digitChar_isDigit (n % 10) (by omega)

theorem natRepr_ne_nil (n : Nat) : natRepr n ≠ [] := by
  by_cases h : n < 10
  · rw [natRepr_lt n h]; simp
  · rw [natRepr_ge n (by omega)]; simp

theorem intRepr_chars (i : Int) :
    ∀ c ∈ intRepr i, c.isDigit = true ∨ c = '-' := by
  intro c hc
  unfold intRepr at hc
  by_cases h : i < 0
  · rw [if_pos h] at hc
    rcases List.mem_cons.mp hc with h' | h'
    · right; exact h'
    · left; exact natRepr_digits _ c h'
  · rw [if_neg h] at hc
    left; exact natRepr_digits _ c hc

theorem intRepr_injective {a b : Int} (h : intRepr a = intRepr b) : a = b := by
  unfold intRepr at h
  by_cases ha : a < 0 <;> by_cases hb : b < 0
  · rw [if_pos ha, if_pos hb] at h
    have := natRepr_injective (List.cons.injEq _ _ _ _ ▸ h).2
    omega
  · rw [if_pos ha, if_neg hb] at h
    exfalso
    have : '-' ∈ natRepr b.natAbs := by rw [← h]; exact List.mem_cons_self _ _
    have := natRepr_digits b.natAbs '-' this
    simp [Char.isDigit] at this
  · rw [if_neg ha, if_pos hb] at h
    exfalso
    have : '-' ∈ natRepr a.natAbs := by rw [h]; exact List.mem_cons_self _ _
    have := natRepr_digits a.natAbs '-' this
    simp [Char.isDigit] at this
  · rw [if_neg ha, if_neg hb] at h
    have := natRepr_injective h
    omega

theorem underscore_not_mem_intRepr (i : Int) : '_' ∉ intRepr i := by
  intro h
  rcases intRepr_chars i '_' h with h' | h'
  · simp [Char.isDigit] at h'
  · simp at h'

theorem append_cons_inj {c : Char} :
    ∀ {xs xs' ys ys' : List Char},
      xs ++ c :: ys = xs' ++ c :: ys' → c ∉ xs → c ∉ xs' →
      xs = xs' ∧ ys = ys' := by
  intro xs
  induction xs with
  | nil =>
    intro xs' ys ys' h hx hx'
    match xs' with
    | [] => simpa using h
    | a :: t =>
      simp at h
      exact absurd (h.1 ▸ List.mem_cons_self a t) (h.1 ▸ hx')
  | cons a t ih =>
    intro xs' ys ys' h hx hx'
    match xs' with
    | [] =>
      simp at h
      exact absurd (h.1 ▸ List.mem_cons_self a t) (h.1 ▸ hx)
    | a' :: t' =>
      simp at h
      obtain ⟨rfl, h2⟩ := h
      have := ih h2 (fun hm => hx (List.mem_cons_of_mem _ hm))
        (fun hm => hx' (List.mem_cons_of_mem _ hm))
      exact ⟨by rw [this.1], this.2⟩

theorem uuidOf_injective {g i g' i' : Int} (h : uuidOf g i = uuidOf g' i') :
    g = g' ∧ i = i' := by
  unfold uuidOf at h
  have := append_cons_inj h (underscore_not_mem_intRepr g)
    (underscore_not_mem_intRepr g')
  exact ⟨intRepr_injective this.1, intRepr_injective this.2⟩

/-! ## Lemmas about the split, join and contains primitives -/

theorem pySplitCore_ne_nil (sep : List Char) :
    ∀ (f : Nat) (l : List Char), pySplitCore sep f l ≠ [] := by
  intro f
  induction f with
  | zero => intro l; cases l <;> simp [pySplitCore]
  | succ f ih =>
    intro l
    cases l with
    | nil => simp [pySplitCore]
    | cons c rest =>
      simp only [pySplitCore]
      split
      · simp
      · cases h : pySplitCore sep f rest <;> simp

theorem pySplitCore_fuel (sep : List Char) (hsep : sep ≠ []) :
    ∀ (f₁ f₂ : Nat) (l : List Char), l.length ≤ f₁ → l.length ≤ f₂ →
      pySplitCore sep f₁ l = pySplitCore sep f₂ l := by
  intro f₁
  induction f₁ with
  | zero =>
    intro f₂ l h₁ h₂
    have : l = [] := by
      cases l with
      | nil => rfl
      | cons c rest => simp at h₁
    subst this
    cases f₂ <;> simp [pySplitCore]
  | succ f ih =>
    intro f₂ l h₁ h₂
    cases l with
    | nil => cases f₂ <;> simp [pySplitCore]
    | cons c rest =>
      match f₂, h₂ with
      | g + 1, _ =>
        simp only [pySplitCore]
        have hlen : 1 ≤ sep.length := by
          cases sep with
          | nil => exact absurd rfl hsep
          | cons s ss => simp
        have hd : (List.drop sep.length (c :: rest)).length
            = rest.length + 1 - sep.length := by simp
        have hcr : (c :: rest).length = rest.length + 1 := by simp
        split
        · rw [ih g (List.drop sep.length (c :: rest)) (by omega) (by omega)]
        · rw [ih g rest (by omega) (by omega)]

theorem containsSub_false_split (sep : List Char) :
    ∀ (f : Nat) (l : List Char), containsSub sep l = false →
      pySplitCore sep f l = [l] := by
  intro f
  induction f with
  | zero =>
    intro l h
    cases l <;> simp [pySplitCore]
  | succ f ih =>
    intro l h
    cases l with
    | nil => simp [pySplitCore]
    | cons c rest =>
      simp only [containsSub, Bool.or_eq_false_iff] at h
      simp only [pySplitCore, h.1, Bool.false_eq_true, if_false]
      rw [ih rest h.2]

theorem not_mem_containsSub_false {c : Char} :
    ∀ {l : List Char}, c ∉ l → containsSub [c] l = false := by
  intro l
  induction l with
  | nil => intro _; simp [containsSub, List.isPrefixOf]
  | cons d rest ih =>
    intro h
    simp only [containsSub, Bool.or_eq_false_iff]
    constructor
    · simp [List.isPrefixOf]
      intro hcd
      exact h (hcd ▸ List.mem_cons_self d rest)
    · exact ih (fun hm => h (List.mem_cons_of_mem d hm))

theorem pySplitCore_not_mem {c : Char} (f : Nat) (l : List Char)
    (h : c ∉ l) : pySplitCore [c] f l = [l] :=
  containsSub_false_split [c] f l (not_mem_containsSub_false h)

theorem pySplitCore_pieces_not_mem (c : Char) :
    ∀ (f : Nat) (l : List Char), l.length ≤ f →
      ∀ p ∈ pySplitCore [c] f l, c ∉ p := by
  intro f
  induction f with
  | zero =>
    intro l hl p hp
    have : l = [] := by
      cases l with
      | nil => rfl
      | cons d rest => simp at hl
    subst this
    simp [pySplitCore] at hp
    subst hp
    simp
  | succ f ih =>
    intro l hl p hp
    cases l with
    | nil =>
      simp [pySplitCore] at hp
      subst hp; simp
    | cons d rest =>
      simp only [pySplitCore] at hp
      by_cases hcd : ([c]).isPrefixOf (d :: rest)
      · rw [if_pos hcd] at hp
        have hdrop : List.drop ([c] : List Char).length (d :: rest) = rest := by
          simp
        rw [hdrop] at hp
        rcases List.mem_cons.mp hp with h' | h'
        · subst h'; simp
        · exact ih rest (by simp at hl; omega) p h'
      · rw [if_neg hcd] at hp
        have hne : c ≠ d := by
          intro hc
          exact hcd (by simp [List.isPrefixOf, hc])
        cases hrest : pySplitCore [c] f rest with
        | nil => exact absurd hrest (pySplitCore_ne_nil [c] f rest)
        | cons p' ps =>
          rw [hrest] at hp
          rcases List.mem_cons.mp hp with h' | h'
          · subst h'
            intro hm
            rcases List.mem_cons.mp hm with h'' | h''
            · exact hne h''
            · exact ih rest (by simp at hl; omega) p'
                (hrest ▸ List.mem_cons_self p' ps) h''
          · exact ih rest (by simp at hl; omega) p
              (hrest ▸ List.mem_cons_of_mem p' h')

theorem pySplitCore_sep_append (c : Char) :
    ∀ (x : List Char) (f : Nat) (rest : List Char), c ∉ x →
      (x ++ c :: rest).length ≤ f →
      pySplitCore [c] f (x ++ c :: rest) =
        x :: pySplitCore [c] rest.length rest := by
  intro x
  induction x with
  | nil =>
    intro f rest _ hf
    simp at hf
    match f, hf with
    | g + 1, _ =>
      simp only [List.nil_append, pySplitCore]
      rw [if_pos (by simp [List.isPrefixOf])]
      have hdrop : List.drop ([c] : List Char).length (c :: rest) = rest := by
        simp
      rw [hdrop]
      rw [pySplitCore_fuel [c] (by simp) g rest.length rest (by omega) (by omega)]
  | cons d x' ih =>
    intro f rest hx hf
    have hne : c ≠ d := fun hc => hx (hc ▸ List.mem_cons_self d x')
    simp at hf
    match f, hf with
    | g + 1, _ =>
      simp only [List.cons_append, pySplitCore]
      rw [if_neg (by simp [List.isPrefixOf]; intro hc; exact hne hc)]
      simp only [List.append_eq]
      rw [ih g rest (fun hm => hx (List.mem_cons_of_mem d hm)) (by simp; omega)]

theorem pySplit_joinSep (c : Char) :
    ∀ (ps : List (List Char)), ps ≠ [] → (∀ p ∈ ps, c ∉ p) →
      pySplit [c] (joinSep [c] ps) = ps := by
  intro ps
  induction ps with
  | nil => intro h; exact absurd rfl h
  | cons x tl ih =>
    intro _ hmem
    cases tl with
    | nil =>
      show pySplit [c] x = [x]
      exact pySplitCore_not_mem x.length x (hmem x (List.mem_cons_self x []))
    | cons y tl' =>
      have hjoin : joinSep [c] (x :: y :: tl') =
          x ++ c :: joinSep [c] (y :: tl') := by
        simp [joinSep]
      rw [hjoin]
      unfold pySplit
      rw [pySplitCore_sep_append c x _ (joinSep [c] (y :: tl'))
        (hmem x (List.mem_cons_self x _)) (by omega)]
      rw [show pySplitCore [c] (joinSep [c] (y :: tl')).length
          (joinSep [c] (y :: tl')) = pySplit [c] (joinSep [c] (y :: tl')) from rfl]
      rw [ih (by simp) (fun p hp => hmem p (List.mem_cons_of_mem x hp))]

/-! ## Lemmas about `mapOpt` -/

theorem mapOpt_some_forall₂ {f : α → Option β} :
    ∀ {l : List α} {out : List β}, mapOpt f l = some out →
      List.Forall₂ (fun a b => f a = some b) l out := by
  intro l
  induction l with
  | nil =>
    intro out h
    simp [mapOpt] at h
    subst h
    exact List.Forall₂.nil
  | cons a tl ih =>
    intro out h
    simp only [mapOpt] at h
    cases hfa : f a with
    | none => rw [hfa] at h; simp at h
    | some b =>
      rw [hfa] at h
      cases htl : mapOpt f tl with
      | none => rw [htl] at h; simp at h
      | some bs =>
        rw [htl] at h
        simp at h
        subst h
        exact List.Forall₂.cons hfa (ih htl)

theorem mapOpt_none_of_mem {f : α → Option β} {a : α} :
    ∀ {l : List α}, a ∈ l → f a = none → mapOpt f l = none := by
  intro l
  induction l with
  | nil => intro h; simp at h
  | cons x tl ih =>
    intro hmem hfa
    rcases List.mem_cons.mp hmem with h | h
    · subst h
      simp [mapOpt, hfa]
    · simp only [mapOpt]
      cases f x with
      | none => rfl
      | some b => rw [ih h hfa]; rfl

/-! ## Claim-specific helper lemmas -/

theorem mem_of_mem_set {α : Type} {b a : α} :
    ∀ {l : List α} {n : Nat}, a ∈ l.set n b → a ∈ l ∨ a = b := by
  intro l
  induction l with
  | nil => intro n h; simp at h
  | cons x tl ih =>
    intro n h
    cases n with
    | zero =>
      rcases List.mem_cons.mp h with h' | h'
      · right; exact h'
      · left; exact List.mem_cons_of_mem x h'
    | succ n =>
      rcases List.mem_cons.mp h with h' | h'
      · left; exact h' ▸ List.mem_cons_self x tl
      · rcases ih h' with h'' | h''
        · left; exact List.mem_cons_of_mem x h''
        · right; exact h''

theorem quoteChar_not_mem_intRepr (i : Int) : quoteChar ∉ intRepr i := by
  intro h
  rcases intRepr_chars i quoteChar h with h' | h'
  · have hq : quoteChar.isDigit = false := by decide
    rw [hq] at h'
    exact Bool.false_ne_true h'
  · exact absurd h' (by decide)

theorem uuidOf_mem_map {g i : Int} {seen : List (Int × Int)} :
    uuidOf g i ∈ seen.map (fun p => uuidOf p.1 p.2) ↔ (g, i) ∈ seen := by
  constructor
  · intro h
    rcases List.mem_map.mp h with ⟨⟨g', i'⟩, hp, he⟩
    obtain ⟨rfl, rfl⟩ := uuidOf_injective he.symm
    exact hp
  · intro h
    exact List.mem_map.mpr ⟨(g, i), h, rfl⟩

theorem get_xml_attribute_default :
    ∀ (lines : List (List Char)) (attrib : List Char),
      (∀ l ∈ lines, (openTag attrib).isPrefixOf (pyStrip l) = false) →
      get_xml_attribute lines attrib = some 0 := by
  intro lines
  induction lines with
  | nil => intro attrib _; rfl
  | cons l rest ih =>
    intro attrib h
    have h1 := h l (List.mem_cons_self l rest)
    simp only [get_xml_attribute, h1, Bool.false_eq_true, if_false]
    exact ih attrib (fun x hx => h x (List.mem_cons_of_mem l hx))

theorem create_dbpf_skip_pkg :
    ∀ (fs : List XmlFile) (uuids : List (List Char)),
      create_dbpf_package fs uuids =
        create_dbpf_package (fs.filter (fun f => !isPackageXml f)) uuids := by
  intro fs
  induction fs with
  | nil => intro uuids; rfl
  | cons f fs ih =>
    intro uuids
    by_cases hpkg : isPackageXml f
    · simp only [create_dbpf_package, hpkg, if_true, List.filter_cons, hpkg,
        Bool.not_true, Bool.false_eq_true, if_false]
      exact ih uuids
    · have hpkg' : isPackageXml f = false := by
        cases h : isPackageXml f with
        | true => exact absurd h hpkg
        | false => rfl
      simp only [create_dbpf_package, hpkg', Bool.false_eq_true, if_false,
        List.filter_cons, Bool.not_false, if_true]
      cases hres : resolve_ids f with
      | none => rfl
      | some t =>
        obtain ⟨tt, gg, ii⟩ := t
        dsimp only
        by_cases hmem : uuidOf gg ii ∈ uuids
        · simp only [if_pos hmem]
          exact ih uuids
        · simp only [if_neg hmem]
          rw [ih (uuidOf gg ii :: uuids)]

theorem create_dbpf_refines :
    ∀ (fs : List XmlFile) (seen : List (Int × Int)) (es : List PkgEntry),
      resolveAll fs = some es →
      create_dbpf_package fs (seen.map (fun p => uuidOf p.1 p.2)) =
        some (dedupByPair es seen) := by
  intro fs
  induction fs with
  | nil =>
    intro seen es h
    simp [resolveAll, mapOpt] at h
    subst h
    rfl
  | cons f fs ih =>
    intro seen es h
    by_cases hpkg : isPackageXml f
    · have hres : resolveAll (f :: fs) = resolveAll fs := by
        simp only [resolveAll, List.filter_cons, hpkg, Bool.not_true,
          Bool.false_eq_true, if_false]
      rw [hres] at h
      simp only [create_dbpf_package, hpkg, if_true]
      exact ih seen es h
    · have hpkg' : isPackageXml f = false := by
        cases h' : isPackageXml f with
        | true => exact absurd h' hpkg
        | false => rfl
      simp only [resolveAll, List.filter_cons, hpkg', Bool.not_false,
        if_true, mapOpt] at h
      cases hres : resolve_ids f with
      | none =>
        rw [show resolveEntry f = none by simp [resolveEntry, hres]] at h
        simp at h
      | some t =>
        obtain ⟨tt, gg, ii⟩ := t
        rw [show resolveEntry f =
            some ⟨tt, gg, ii, pkg_file_path f⟩ by simp [resolveEntry, hres]] at h
        cases hrest : mapOpt resolveEntry
            (fs.filter (fun f => !isPackageXml f)) with
        | none =>
          rw [hrest] at h; simp at h
        | some es' =>
          rw [hrest] at h
          simp only [Option.map_some', Option.some.injEq] at h
          subst h
          have hresAll : resolveAll fs = some es' := hrest
          simp only [create_dbpf_package, hpkg', Bool.false_eq_true, if_false,
            hres]
          by_cases hmem : (gg, ii) ∈ seen
          · rw [if_pos (uuidOf_mem_map.mpr hmem)]
            simp only [dedupByPair, if_pos hmem]
            exact ih seen es' hresAll
          · rw [if_neg (fun hc => hmem (uuidOf_mem_map.mp hc))]
            have huu : uuidOf gg ii :: seen.map (fun p => uuidOf p.1 p.2) =
                ((gg, ii) :: seen).map (fun p => uuidOf p.1 p.2) := rfl
            rw [huu, ih ((gg, ii) :: seen) es' hresAll]
            simp only [dedupByPair, if_neg hmem]
            rfl

theorem replace_coord_no_occurrence (sf : Int) (name data : List Char)
    (h1 : containsSub (name ++ ['=']) data = false)
    (h2 : (['('] : List Char).isPrefixOf data = false) :
    replace_coord_attribute sf name data = some data := by
  unfold replace_coord_attribute
  rw [show pySplit (name ++ ['=']) data = [data] from
    containsSub_false_split _ _ _ h1]
  simp only [mapOpt, replace_coord_part, h2, Bool.false_eq_true, if_false]
  rfl

/-! ## The claims -/

/-- Claim C1: duplicate detection in the Archive Assembler uses only the
`(group_id, instance_id)` pair — `type_id` does not participate.  The
assembly loop over any resolvable sidecar list produces exactly the
first-occurrence-by-pair filter of the resolved resource stream (a later
resource with an already-seen pair stores nothing and the build continues
with a `some` result), and in particular adding identities
`(type=1, group=5, instance=9)` then `(type=2, group=5, instance=9)` stores
exactly one entry, the first. -/
theorem C1_dedup_by_pair :
    (∀ (fs : List XmlFile) (es : List PkgEntry),
      resolveAll fs = some es →
      create_dbpf_package fs [] = some (dedupByPair es [])) ∧
    create_dbpf_package [exampleXmlA, exampleXmlB] [] =
      some [⟨1, 5, 9, "a".toList⟩] := by
  constructor
  · intro fs es h
    have := create_dbpf_refines fs [] es h
    simpa using this
  · decide

/-- Witness for C1 at the concrete pair of sidecars from the claim. -/
theorem C1_dedup_by_pair_witness :
    resolveAll [exampleXmlA, exampleXmlB] =
      some [⟨1, 5, 9, "a".toList⟩, ⟨2, 5, 9, "b".toList⟩] ∧
    create_dbpf_package [exampleXmlA, exampleXmlB] [] =
      some (dedupByPair
        [⟨1, 5, 9, "a".toList⟩, ⟨2, 5, 9, "b".toList⟩] []) :=
  ⟨by decide, C1_dedup_by_pair.1 [exampleXmlA, exampleXmlB] _ (by decide)⟩

/-- Claim C2: a buffer of at least 4 bytes is classified by its leading
bytes only, in the source's priority order — `00 00 02` or `00 00 0A` is
Targa, `42 4D` is Bitmap, `FF D8 FF` is JPEG, `89 50 4E 47` is PNG,
anything else Unknown — and the file path never influences the result. -/
theorem C2_type_sniffer (path : List Char) (data : List Nat)
    (h : 4 ≤ data.length) :
    ((data.take 3 = [0, 0, 2] ∨ data.take 3 = [0, 0, 10]) →
      classify_file path data = .tga) ∧
    (data.take 2 = [66, 77] → classify_file path data = .bmp) ∧
    (data.take 3 = [255, 216, 255] → classify_file path data = .jpg) ∧
    (data.take 4 = [137, 80, 78, 71] → classify_file path data = .png) ∧
    (¬(data.take 3 = [0, 0, 2] ∨ data.take 3 = [0, 0, 10]) →
      data.take 2 ≠ [66, 77] → data.take 3 ≠ [255, 216, 255] →
      data.take 4 ≠ [137, 80, 78, 71] →
      classify_file path data = .unknown) ∧
    (∀ path', classify_file path data = classify_file path' data) := by
  match data, h with
  | b0 :: b1 :: b2 :: b3 :: rest, _ =>
    simp only [classify_file, filetype, List.take]
    refine ⟨?_, ?_, ?_, ?_, ?_, fun _ => trivial⟩
    · intro hc
      rw [if_pos hc]
    · intro hc
      simp only [List.cons.injEq, List.nil_eq] at hc
      obtain ⟨rfl, rfl, -⟩ := hc
      rw [if_neg (by simp), if_pos rfl]
    · intro hc
      simp only [List.cons.injEq, List.nil_eq] at hc
      obtain ⟨rfl, rfl, rfl, -⟩ := hc
      rw [if_neg (by simp), if_neg (by simp), if_pos rfl]
    · intro hc
      simp only [List.cons.injEq, List.nil_eq] at hc
      obtain ⟨rfl, rfl, rfl, rfl, -⟩ := hc
      rw [if_neg (by simp), if_neg (by simp), if_neg (by simp), if_pos rfl]
    · intro h1 h2 h3 h4
      rw [if_neg h1, if_neg h2, if_neg h3, if_neg h4]

/-- Witness for C2 at a concrete PNG-signature buffer. -/
theorem C2_type_sniffer_witness :
    4 ≤ ([137, 80, 78, 71, 9] : List Nat).length ∧
    classify_file ("p".toList) [137, 80, 78, 71, 9] = .png :=
  ⟨by decide,
   (C2_type_sniffer ("p".toList) [137, 80, 78, 71, 9] (by decide)).2.2.2.1
     (by decide)⟩

/-- Claim C3, evaluated at a failing input.  The claim says that rewriting
`area=(10,20,30,40)` at scale 2 leaves every other attribute on the line
byte-identical; the code substitutes the value through `str.replace`, which
rewrites every occurrence of the value string in the segment, so the
unrelated attribute `x=10,20,30,40` is rewritten as well. -/
theorem C3_replace_clobbers_eval :
    upscale_uiscript_data 2 ("area=(10,20,30,40) x=10,20,30,40".toList) =
      some ("area=(20,40,60,80) x=20,40,60,80".toList) ∧
    upscale_uiscript_data 2 ("area=(10,20,30,40) x=10,20,30,40".toList) ≠
      some ("area=(20,40,60,80) x=10,20,30,40".toList) := by
  constructor
  · decide
  · decide

/-- Claim C4, counterexample: at scale factor 1 the rewriter is not the
identity — an input consisting of a leading parenthesized tuple gains an
`area=` prefix, because the loop prefixes the separator onto every piece
that starts with a parenthesis, including the first piece, which was not
preceded by an `area=` token. -/
theorem C4_counterexample :
    upscale_uiscript_data 1 ("(1)".toList) = some ("area=(1)".toList) ∧
    upscale_uiscript_data 1 ("(1)".toList) ≠ some ("(1)".toList) := by
  constructor
  · decide
  · decide

/-- Claim C4 as amended: at scale factor 1 the Geometry Rewriter is the
identity on every decodable input that does not begin with `(` and contains
no occurrence of the targeted attribute tokens `area=` or `gutters=`; on
other inputs the output may differ from the input (leading-parenthesis
prefixing, canonical re-rendering of numbers, dropped separators). -/
theorem C4_scale_one_identity (data : List Char)
    (h1 : containsSub ("area".toList ++ ['=']) data = false)
    (h2 : containsSub ("gutters".toList ++ ['=']) data = false)
    (h3 : (['('] : List Char).isPrefixOf data = false) :
    upscale_uiscript_data 1 data = some data := by
  unfold upscale_uiscript_data
  rw [replace_coord_no_occurrence 1 ("area".toList) data h1 h3]
  exact replace_coord_no_occurrence 1 ("gutters".toList) data h2 h3

/-- Witness for the amended C4 at a concrete attribute-free input. -/
theorem C4_scale_one_identity_witness :
    containsSub ("area".toList ++ ['=']) ("<LEGACY clsid=x>".toList) = false ∧
    containsSub ("gutters".toList ++ ['=']) ("<LEGACY clsid=x>".toList) = false ∧
    (['('] : List Char).isPrefixOf ("<LEGACY clsid=x>".toList) = false ∧
    upscale_uiscript_data 1 ("<LEGACY clsid=x>".toList) =
      some ("<LEGACY clsid=x>".toList) :=
  ⟨by decide, by decide, by decide,
   C4_scale_one_identity ("<LEGACY clsid=x>".toList)
     (by decide) (by decide) (by decide)⟩

/-- Claim C5, evaluated at a failing input.  The claim says an `area=`
occurrence whose value is not parenthesized is left untouched; the code
re-emits the split pieces but restores the `area=` separator only before
parenthesized pieces, so `area=ref` loses its `area=` token entirely. -/
theorem C5_unparenthesized_eval :
    upscale_uiscript_data 2 ("area=ref".toList) = some ("ref".toList) ∧
    upscale_uiscript_data 2 ("area=ref".toList) ≠ some ("area=ref".toList) := by
  constructor
  · decide
  · decide

/-- Claim C7, counterexample: with a previous archive `file [1]` present and
the build interrupted after its first two destination events (remove and
create-empty), the destination holds an empty file — neither the previous
archive nor nothing, so the previous successful archive has been destroyed
by an incomplete build. -/
theorem C7_counterexample :
    destRun (.file [1])
        ((create_dbpf_package_events (.file [1]) [2]).take 2) = .file [] ∧
    DestFile.file [] ≠ DestFile.file [1] ∧
    DestFile.file [] ≠ DestFile.absent := by
  refine ⟨by decide, by decide, by decide⟩

/-- Claim C7 as amended: the destination is deleted and recreated empty as
soon as the build starts and written once at the end (the library save is
modelled as a single write), so before the build touches it the destination
holds the previous state, and after any later interruption point it holds
nothing, the empty placeholder, or the completed archive — never the
previous successful archive. -/
theorem C7_destination_states (prev : DestFile) (final : List Nat) (k : Nat) :
    (k = 0 →
      destRun prev ((create_dbpf_package_events prev final).take k) = prev) ∧
    (1 ≤ k →
      destRun prev ((create_dbpf_package_events prev final).take k) =
          .absent ∨
      destRun prev ((create_dbpf_package_events prev final).take k) =
          .file [] ∨
      destRun prev ((create_dbpf_package_events prev final).take k) =
          .file final) := by
  constructor
  · intro hk
    subst hk
    cases prev <;> rfl
  · intro hk
    cases prev with
    | absent =>
      match k, hk with
      | 1, _ => right; left; rfl
      | n + 2, _ =>
        right; right
        show destRun _
          (List.take (n + 2) [DestEv.createEmpty, DestEv.save final]) = _
        rw [List.take_of_length_le (by simp)]
        rfl
    | file b =>
      match k, hk with
      | 1, _ => left; rfl
      | 2, _ => right; left; rfl
      | n + 3, _ =>
        right; right
        show destRun _
          (List.take (n + 3)
            [DestEv.remove, DestEv.createEmpty, DestEv.save final]) = _
        rw [List.take_of_length_le (by simp)]
        rfl

/-- Witness for the amended C7 at a concrete interruption point. -/
theorem C7_destination_states_witness :
    (1 : Nat) ≤ 2 ∧
    (destRun (.file [1])
        ((create_dbpf_package_events (.file [1]) [2]).take 2) = .absent ∨
     destRun (.file [1])
        ((create_dbpf_package_events (.file [1]) [2]).take 2) = .file [] ∨
     destRun (.file [1])
        ((create_dbpf_package_events (.file [1]) [2]).take 2) = .file [2]) :=
  ⟨by decide, (C7_destination_states (.file [1]) [2] 2).2 (by decide)⟩

/-- Claim C6: a font-table line that splits on the quote character into at
least six pieces has the piece at index 3 replaced by the decimal rendering
of `old_size * ScaleFactor + FontSizeDelta`, every other piece and the
quote characters preserved verbatim (re-splitting the output yields exactly
the input pieces with index 3 replaced); a line with fewer than six pieces
passes through unchanged; and the file rewrite maps lines in order. -/
theorem C6_font_table (sf delta : Int) (line : List Char) :
    ((pySplit [quoteChar] line).length < 6 →
      upscale_fontstyle_line sf delta line = some line) ∧
    (∀ n : Int, 6 ≤ (pySplit [quoteChar] line).length →
      pyInt ((pySplit [quoteChar] line).getD 3 []) = some n →
      upscale_fontstyle_line sf delta line =
        some (joinSep [quoteChar]
          ((pySplit [quoteChar] line).set 3 (intRepr (n * sf + delta)))) ∧
      pySplit [quoteChar]
          (joinSep [quoteChar]
            ((pySplit [quoteChar] line).set 3 (intRepr (n * sf + delta)))) =
        (pySplit [quoteChar] line).set 3 (intRepr (n * sf + delta))) ∧
    (∀ (lines out : List (List Char)),
      upscale_fontstyle_ini sf delta lines = some out →
      List.Forall₂ (fun a b => upscale_fontstyle_line sf delta a = some b)
        lines out) := by
  refine ⟨?_, ?_, ?_⟩
  · intro h
    simp only [upscale_fontstyle_line]
    rw [if_pos h]
  · intro n h6 hp
    constructor
    · simp only [upscale_fontstyle_line]
      rw [if_neg (Nat.not_lt.mpr h6), hp]
    · apply pySplit_joinSep
      · apply List.ne_nil_of_length_pos
        rw [List.length_set]
        omega
      · intro p hmem
        rcases mem_of_mem_set hmem with h' | h'
        · exact pySplitCore_pieces_not_mem quoteChar line.length line
            (Nat.le_refl _) p h'
        · subst h'
          exact quoteChar_not_mem_intRepr _
  · intro lines out h
    exact mapOpt_some_forall₂ h

/-- Witness for C6: point size 10 at scale 2 with delta 1 becomes 21. -/
theorem C6_font_table_witness :
    6 ≤ (pySplit [quoteChar] exampleFontLine).length ∧
    pyInt ((pySplit [quoteChar] exampleFontLine).getD 3 []) = some 10 ∧
    (upscale_fontstyle_line 2 1 exampleFontLine =
      some (joinSep [quoteChar]
        ((pySplit [quoteChar] exampleFontLine).set 3
          (intRepr (10 * 2 + 1)))) ∧
     pySplit [quoteChar]
        (joinSep [quoteChar]
          ((pySplit [quoteChar] exampleFontLine).set 3
            (intRepr (10 * 2 + 1)))) =
      (pySplit [quoteChar] exampleFontLine).set 3 (intRepr (10 * 2 + 1))) :=
  ⟨by decide, by decide,
   (C6_font_table 2 1 exampleFontLine).2.1 10 (by decide) (by decide)⟩

/-- Claim C8, evaluated at the failing situation.  The dispatcher's outcome
for one raster file depends only on the file the converter left behind,
never on the converter's exit code — `os.system`'s return value is
discarded — so a non-zero exit that left a zero-byte output file is treated
as success with that zero-byte payload. -/
theorem C8_exit_code_ignored :
    upscale_one ⟨1, some []⟩ = Except.ok [] ∧
    ∀ (e₁ e₂ : Int) (o : Option (List Nat)),
      upscale_one ⟨e₁, o⟩ = upscale_one ⟨e₂, o⟩ :=
  ⟨rfl, fun _ _ _ => rfl⟩

/-- Claim C9: the Identity Resolver returns 0 for any missing integer tag
(never fatal) — per tag and for the whole `(type, group, instance)` triple
— and the manifest sidecar `package.xml` is excluded from assembly, so it
is never packed as a resource. -/
theorem C9_identity_resolver :
    (∀ (lines : List (List Char)) (attrib : List Char),
      (∀ l ∈ lines, (openTag attrib).isPrefixOf (pyStrip l) = false) →
      get_xml_attribute lines attrib = some 0) ∧
    (∀ f : XmlFile,
      (∀ l ∈ f.lines,
        (openTag ("number".toList)).isPrefixOf (pyStrip l) = false) →
      (∀ l ∈ f.lines,
        (openTag ("group".toList)).isPrefixOf (pyStrip l) = false) →
      (∀ l ∈ f.lines,
        (openTag ("instance".toList)).isPrefixOf (pyStrip l) = false) →
      resolve_ids f = some (0, 0, 0)) ∧
    (∀ (fs : List XmlFile) (uuids : List (List Char)),
      create_dbpf_package fs uuids =
        create_dbpf_package (fs.filter (fun f => !isPackageXml f)) uuids) := by
  refine ⟨get_xml_attribute_default, ?_, create_dbpf_skip_pkg⟩
  intro f hn hg hi
  unfold resolve_ids
  rw [get_xml_attribute_default f.lines ("number".toList) hn,
    get_xml_attribute_default f.lines ("group".toList) hg,
    get_xml_attribute_default f.lines ("instance".toList) hi]

/-- Witness for C9: a sidecar without an `instance` tag resolves that tag
to 0, and a lone manifest sidecar contributes no entries. -/
theorem C9_identity_resolver_witness :
    get_xml_attribute ["<number>1</number>".toList] ("instance".toList) =
      some 0 ∧
    create_dbpf_package [examplePackageXml] [] = some [] := by
  constructor
  · exact C9_identity_resolver.1 ["<number>1</number>".toList]
      ("instance".toList) (by decide)
  · rw [C9_identity_resolver.2.2 [examplePackageXml] []]
    decide

/-- Claim C10: a font-table line with at least six quote-split pieces whose
index-3 piece is not a valid integer makes the per-line conversion fail
(Python raises `ValueError`), and the failure aborts the whole rewrite
before any output is produced — such a line is not passed through. -/
theorem C10_bad_size_field (sf delta : Int) (line : List Char)
    (h6 : 6 ≤ (pySplit [quoteChar] line).length)
    (hp : pyInt ((pySplit [quoteChar] line).getD 3 []) = none) :
    upscale_fontstyle_line sf delta line = none ∧
    ∀ lines : List (List Char), line ∈ lines →
      upscale_fontstyle_ini sf delta lines = none := by
  have h1 : upscale_fontstyle_line sf delta line = none := by
    simp only [upscale_fontstyle_line]
    rw [if_neg (Nat.not_lt.mpr h6), hp]
  exact ⟨h1, fun lines hm => mapOpt_none_of_mem hm h1⟩

/-- Witness for C10 at a line whose index-3 field is `xx`. -/
theorem C10_bad_size_field_witness :
    6 ≤ (pySplit [quoteChar] exampleBadFontLine).length ∧
    pyInt ((pySplit [quoteChar] exampleBadFontLine).getD 3 []) = none ∧
    upscale_fontstyle_line 2 1 exampleBadFontLine = none ∧
    upscale_fontstyle_ini 2 1 [exampleBadFontLine] = none :=
  ⟨by decide, by decide,
   (C10_bad_size_field 2 1 exampleBadFontLine (by decide) (by decide)).1,
   (C10_bad_size_field 2 1 exampleBadFontLine (by decide) (by decide)).2
     [exampleBadFontLine] (List.mem_cons_self _ _)⟩
